import Mathlib

/-!
Shallow embedding of the mizuhiki-ta technical-analysis core (Rust) in Lean 4.

The numeric element type `T` of the Rust code (generic over the `Numeric`
trait, instantiated at f32/f64/i32/i64) is embedded as `ℚ`, which gives the
exact field arithmetic the recurrence formulas are specified with.
Rust `Vec<T>` becomes `List ℚ`; `Vec::push` appends at the end.

Sources embedded:
  - src/core/column.rs   (Column: diff, ewm_mean)
  - src/core/series.rs   (Series wrapper carrying a name and an index)
  - src/core/candle.rs   (Candle, CandleSeries: push, push_unchecked,
                          push_candle_unchecked, get, true_range)
  - src/core/error.rs    (Error)
  - src/indicators/rsi.rs  (RsiConfig, rsi, calculate_rsi_from_averages)
  - src/indicators/natr.rs (NatrConfig, natr, calculate_true_range,
                            calculate_natr_from_atr)
-/

namespace Mizuhiki

/-! ## Column (src/core/column.rs)

`Column<T>` wraps a `Vec<T>`; we embed the data vector directly as `List ℚ`
and give the bulk operations as functions on lists.
-/

/-- The loop body of `Column::diff`: given the previous element, emit
`current - previous` for each remaining element (mirrors the
`for i in 1..len` loop of `Column::diff`). -/
def diffGo : ℚ → List ℚ → List ℚ
  | _, [] => []
  | prev, x :: xs => (x - prev) :: diffGo x xs

/-- `Column::diff` (column.rs:150-163): for length ≤ 1 a column of
`T::default()` (zero) of the same length; otherwise element 0 is
`T::default()` and element i is `data[i] - data[i-1]`. -/
def diff (data : List ℚ) : List ℚ :=
  if data.length ≤ 1 then List.replicate data.length 0
  else
    match data with
    | [] => []
    | x :: xs => 0 :: diffGo x xs

/-- The loop body of `Column::ewm_mean` (column.rs:196-200): carries the
running `ema` value, emitting `alpha * current + (1 - alpha) * ema` at
each step. -/
def ewmGo (alpha : ℚ) : ℚ → List ℚ → List ℚ
  | _, [] => []
  | ema, x :: xs =>
      let e := alpha * x + (1 - alpha) * ema
      e :: ewmGo alpha e xs

/-- `Column::ewm_mean` (column.rs:185-203): empty input gives an empty
column; otherwise the first raw value seeds the recurrence and the loop
emits `alpha * current + (1 - alpha) * ema`. -/
def ewm_mean (data : List ℚ) (alpha : ℚ) : List ℚ :=
  match data with
  | [] => []
  | x :: xs => x :: ewmGo alpha x xs

theorem diffGo_length (p : ℚ) (xs : List ℚ) : (diffGo p xs).length = xs.length := by
  induction xs generalizing p with
  | nil => rfl
  | cons x xs ih => simp [diffGo, ih]

theorem diff_length (data : List ℚ) : (diff data).length = data.length := by
  unfold diff
  split
  · simp
  · match data with
    | [] => simp
    | x :: xs => simp [diffGo_length]

theorem ewmGo_length (a e : ℚ) (xs : List ℚ) : (ewmGo a e xs).length = xs.length := by
  induction xs generalizing e with
  | nil => rfl
  | cons x xs ih => simp [ewmGo, ih]

theorem ewm_mean_length (data : List ℚ) (a : ℚ) :
    (ewm_mean data a).length = data.length := by
  match data with
  | [] => rfl
  | x :: xs => simp [ewm_mean, ewmGo_length]

/-- First element of the EWM loop output. -/
theorem ewmGo_get_zero (a e x : ℚ) (xs : List ℚ) :
    (ewmGo a e (x :: xs)).getD 0 0 = a * x + (1 - a) * e := by
  simp [ewmGo]

/-- Element `i+1` of the EWM loop output obeys the recurrence against
element `i`. -/
theorem ewmGo_get_succ (a e : ℚ) (xs : List ℚ) (i : ℕ) (h : i + 1 < xs.length) :
    (ewmGo a e xs).getD (i + 1) 0 =
      a * xs.getD (i + 1) 0 + (1 - a) * (ewmGo a e xs).getD i 0 := by
  induction xs generalizing e i with
  | nil => simp at h
  | cons x xs ih =>
    match xs, h with
    | y :: ys, h =>
      match i with
      | 0 => simp [ewmGo]
      | i + 1 =>
        have h' : i + 1 < (y :: ys).length := by
          simpa using Nat.lt_of_succ_lt_succ h
        simpa [ewmGo] using ih (a * x + (1 - a) * e) i h'

/-- `ewm_mean` of a nonempty column keeps the first raw value. -/
theorem ewm_mean_get_zero (x : ℚ) (xs : List ℚ) (a : ℚ) :
    (ewm_mean (x :: xs) a).getD 0 0 = x := by
  simp [ewm_mean]

/-- Every element of `ewm_mean` at position `i ≥ 1` obeys the EMA
recurrence against position `i - 1`. -/
theorem ewm_mean_recurrence (data : List ℚ) (a : ℚ) (i : ℕ)
    (h1 : 1 ≤ i) (h2 : i < data.length) :
    (ewm_mean data a).getD i 0 =
      a * data.getD i 0 + (1 - a) * (ewm_mean data a).getD (i - 1) 0 := by
  match data with
  | [] => simp at h2
  | x :: xs =>
    match i, h1 with
    | 1, _ =>
      match xs, h2 with
      | y :: ys, _ => simp [ewm_mean, ewmGo]
    | i + 2, _ =>
      have hlen : i + 1 < xs.length := by simpa using Nat.lt_of_succ_lt_succ h2
      have := ewmGo_get_succ a x xs i hlen
      simpa [ewm_mean] using this

/-- If the seed and every element are nonnegative and `0 ≤ a ≤ 1`, every
element of the EWM loop output is nonnegative. -/
theorem ewmGo_nonneg (a : ℚ) (ha0 : 0 ≤ a) (ha1 : a ≤ 1) :
    ∀ (e : ℚ) (xs : List ℚ), 0 ≤ e → (∀ x ∈ xs, 0 ≤ x) →
      ∀ y ∈ ewmGo a e xs, 0 ≤ y := by
  intro e xs
  induction xs generalizing e with
  | nil => intro _ _ y hy; simp [ewmGo] at hy
  | cons x xs ih =>
    intro he hxs y hy
    have hx : 0 ≤ x := hxs x (by simp)
    have hstep : 0 ≤ a * x + (1 - a) * e := by
      have h1 : 0 ≤ a * x := mul_nonneg ha0 hx
      have h2 : 0 ≤ (1 - a) * e := mul_nonneg (by linarith) he
      linarith
    simp only [ewmGo, List.mem_cons] at hy
    rcases hy with rfl | hy
    · exact hstep
    · exact ih _ hstep (fun z hz => hxs z (by simp [hz])) y hy

/-- If every input element is nonnegative and `0 ≤ a ≤ 1`, every element of
`ewm_mean` is nonnegative. -/
theorem ewm_mean_nonneg (data : List ℚ) (a : ℚ) (ha0 : 0 ≤ a) (ha1 : a ≤ 1)
    (hd : ∀ x ∈ data, 0 ≤ x) : ∀ y ∈ ewm_mean data a, 0 ≤ y := by
  match data with
  | [] => intro y hy; simp [ewm_mean] at hy
  | x :: xs =>
    intro y hy
    have hx : 0 ≤ x := hd x (by simp)
    simp only [ewm_mean, List.mem_cons] at hy
    rcases hy with rfl | hy
    · exact hx
    · exact ewmGo_nonneg a ha0 ha1 x xs hx (fun z hz => hd z (by simp [hz])) y hy

/-- Elements of `diff`: element 0 is zero, element `i ≥ 1` is
`data[i] - data[i-1]`. -/
theorem diffGo_getD (p : ℚ) (xs : List ℚ) (i : ℕ) (h : i < xs.length) :
    (diffGo p xs).getD i 0 = xs.getD i 0 - (p :: xs).getD i 0 := by
  induction xs generalizing p i with
  | nil => simp at h
  | cons x xs ih =>
    match i with
    | 0 => simp [diffGo]
    | i + 1 =>
      have h' : i < xs.length := by simpa using Nat.lt_of_succ_lt_succ h
      simpa [diffGo] using ih x i h'

/-- C8 : For every Column, `diff()` returns a Column of the same length
whose element 0 is the element type's zero regardless of the input values,
and whose element `i`, for every `i ≥ 1`, equals `data[i] - data[i-1]`. -/
theorem C8_diff_spec (data : List ℚ) :
    (diff data).length = data.length ∧
    (∀ i : ℕ, i < data.length →
      (diff data).getD i 0 =
        if i = 0 then 0 else data.getD i 0 - data.getD (i - 1) 0) := by
  refine ⟨diff_length data, ?_⟩
  intro i hi
  match data with
  | [] => simp at hi
  | [x] =>
    match i, hi with
    | 0, _ => simp [diff]
  | x :: y :: xs =>
    have hlen : ¬ (x :: y :: xs).length ≤ 1 := by simp
    match i with
    | 0 => simp [diff, hlen]
    | i + 1 =>
      have h' : i < (y :: xs).length := by simpa using Nat.lt_of_succ_lt_succ hi
      have := diffGo_getD x (y :: xs) i h'
      simp only [diff, hlen, if_false, List.getD_cons_succ]
      simpa [diff] using this

/-- C8 witness: `diff` on `[3, 5, 2]` has length 3 and elements
`[0, 2, -3]` as the per-index rule dictates. -/
theorem C8_diff_spec_witness :
    (diff [3, 5, 2]).length = ([3, 5, 2] : List ℚ).length ∧
    (diff [3, 5, 2]).getD 1 0 =
      if (1 : ℕ) = 0 then 0
      else ([3, 5, 2] : List ℚ).getD 1 0 - ([3, 5, 2] : List ℚ).getD 0 0 :=
  ⟨(C8_diff_spec [3, 5, 2]).1, (C8_diff_spec [3, 5, 2]).2 1 (by decide)⟩

/-- C1 : For every alpha in (0,1) and every non-empty Column, `ewm_mean(alpha)`
returns a same-length Column whose element 0 equals the raw element 0 and
whose element `i`, for every `i ≥ 1`, equals
`alpha*raw[i] + (1-alpha)*result[i-1]` (a sequential left-to-right scan). -/
theorem C1_ewm_mean_spec (data : List ℚ) (alpha : ℚ)
    (ha0 : 0 < alpha) (ha1 : alpha < 1) (hne : data ≠ []) :
    (ewm_mean data alpha).length = data.length ∧
    (ewm_mean data alpha).getD 0 0 = data.getD 0 0 ∧
    (∀ i : ℕ, 1 ≤ i → i < data.length →
      (ewm_mean data alpha).getD i 0 =
        alpha * data.getD i 0 + (1 - alpha) * (ewm_mean data alpha).getD (i - 1) 0) := by
  refine ⟨ewm_mean_length data alpha, ?_, fun i h1 h2 => ewm_mean_recurrence data alpha i h1 h2⟩
  match data, hne with
  | x :: xs, _ => simpa using ewm_mean_get_zero x xs alpha

/-- C1 witness: `ewm_mean` with alpha 1/2 on `[4, 8]` seeds with 4 and
yields `1/2*8 + 1/2*4 = 6` at position 1. -/
theorem C1_ewm_mean_spec_witness :
    (ewm_mean [4, 8] (1/2)).length = 2 ∧
    (ewm_mean [4, 8] (1/2)).getD 0 0 = 4 ∧
    (ewm_mean [4, 8] (1/2)).getD 1 0 =
      (1/2) * ([4, 8] : List ℚ).getD 1 0 + (1 - 1/2) * (ewm_mean [4, 8] (1/2)).getD 0 0 := by
  have h := C1_ewm_mean_spec [4, 8] (1/2) (by norm_num) (by norm_num) (by simp)
  exact ⟨h.1, by simpa using h.2.1, h.2.2 1 (by decide) (by decide)⟩

/-! ## Series (src/core/series.rs)

`Series<T, I>` wraps a Column with a name and a parallel index; the index
type `I` is embedded as `ℕ` (the `usize` instantiation used throughout the
indicator code and tests). The column is embedded as its data list.
-/

structure Series where
  name : String
  values : List ℚ
  index : List ℕ
  deriving DecidableEq

namespace Series

/-- `Series::from_vec` (series.rs:188-191): automatic 0..n-1 index. -/
def from_vec (name : String) (data : List ℚ) : Series :=
  ⟨name, data, List.range data.length⟩

/-- `Series::len` delegates to the column length. -/
def len (s : Series) : ℕ := s.values.length

/-- `Series::map` (series.rs:108-118): maps the column, keeps name and
index. -/
def map (s : Series) (f : ℚ → ℚ) : Series :=
  ⟨s.name, s.values.map f, s.index⟩

/-- `Series::diff` (series.rs:149-155): column-level `diff`, index kept. -/
def diff (s : Series) : Series :=
  ⟨s.name, Mizuhiki.diff s.values, s.index⟩

/-- `Series::ewm_mean` (series.rs:160-166): column-level `ewm_mean`,
index kept. -/
def ewm_mean (s : Series) (alpha : ℚ) : Series :=
  ⟨s.name, Mizuhiki.ewm_mean s.values alpha, s.index⟩

end Series

/-! ## RSI (src/indicators/rsi.rs) -/

/-- `RsiConfig<T>` (rsi.rs:8-11). -/
structure RsiConfig where
  period : ℕ
  alpha : ℚ
  deriving DecidableEq

/-- `RsiResult<T, I>` (rsi.rs:61-65). -/
structure RsiResult where
  rsi : Series
  avg_gain : Series
  avg_loss : Series
  deriving DecidableEq

/-- `calculate_rsi_from_averages` (rsi.rs:132-164): zips the two average
series; a pair of zeros maps to fifty, anything else to
`hundred * (gain / (gain + loss))`. -/
def calculate_rsi_from_averages (avg_gain avg_loss : Series) : Series :=
  ⟨avg_gain.name ++ "_rsi",
   (avg_gain.values.zip avg_loss.values).map fun p =>
     if p.1 = 0 ∧ p.2 = 0 then 50 else 100 * (p.1 / (p.1 + p.2)),
   avg_gain.index⟩

/-- `rsi` (rsi.rs:89-129): diff, gain/loss split by sign, EMAs of both,
then the ratio formula. -/
def rsi (prices : Series) (config : RsiConfig) : RsiResult :=
  let changes := prices.diff
  let gains := changes.map fun change => if 0 < change then change else 0
  let losses := changes.map fun change => if change < 0 then 0 - change else 0
  let avg_gain := gains.ewm_mean config.alpha
  let avg_loss := losses.ewm_mean config.alpha
  ⟨calculate_rsi_from_averages avg_gain avg_loss, avg_gain, avg_loss⟩

/-- Element access through `map` over a `zip` of two lists. -/
theorem getD_map_zip (f : ℚ × ℚ → ℚ) (a b : List ℚ) (i : ℕ)
    (ha : i < a.length) (hb : i < b.length) :
    ((a.zip b).map f).getD i 0 = f (a.getD i 0, b.getD i 0) := by
  have hz : i < (a.zip b).length := by simp only [List.length_zip]; omega
  have hm : i < ((a.zip b).map f).length := by simpa using hz
  rw [List.getD_eq_getElem _ _ hm, List.getElem_map, List.getElem_zip,
    List.getD_eq_getElem _ _ ha, List.getD_eq_getElem _ _ hb]

/-- An in-range `getD` element is a member of the list. -/
theorem getD_mem (l : List ℚ) (i : ℕ) (h : i < l.length) : l.getD i 0 ∈ l := by
  rw [List.getD_eq_getElem _ _ h]; exact List.getElem_mem _

/-- C2 : For every price series and config (with alpha in (0,1) as the
config contract requires), every element of the RSI output series lies in
[0,100]; an element equals exactly 50 when both the average gain and the
average loss at that position are zero, and otherwise equals
`100 * avg_gain[i] / (avg_gain[i] + avg_loss[i])`. -/
theorem C2_rsi_bounds (prices : Series) (config : RsiConfig)
    (ha0 : 0 < config.alpha) (ha1 : config.alpha < 1) :
    ∀ i : ℕ, i < (rsi prices config).rsi.len →
      0 ≤ (rsi prices config).rsi.values.getD i 0 ∧
      (rsi prices config).rsi.values.getD i 0 ≤ 100 ∧
      (rsi prices config).rsi.values.getD i 0 =
        (if (rsi prices config).avg_gain.values.getD i 0 = 0 ∧
            (rsi prices config).avg_loss.values.getD i 0 = 0 then 50
         else 100 * (rsi prices config).avg_gain.values.getD i 0 /
           ((rsi prices config).avg_gain.values.getD i 0 +
            (rsi prices config).avg_loss.values.getD i 0)) := by
  intro i hi
  have hGdef : (rsi prices config).avg_gain.values =
      ewm_mean ((diff prices.values).map fun c => if 0 < c then c else 0) config.alpha := rfl
  have hLdef : (rsi prices config).avg_loss.values =
      ewm_mean ((diff prices.values).map fun c => if c < 0 then 0 - c else 0) config.alpha := rfl
  have hVdef : (rsi prices config).rsi.values =
      ((rsi prices config).avg_gain.values.zip (rsi prices config).avg_loss.values).map
        (fun p => if p.1 = 0 ∧ p.2 = 0 then 50 else 100 * (p.1 / (p.1 + p.2))) := rfl
  have hilen : i < ((rsi prices config).avg_gain.values.zip
      (rsi prices config).avg_loss.values).length := by
    have : (rsi prices config).rsi.len = (((rsi prices config).avg_gain.values.zip
        (rsi prices config).avg_loss.values).map
        (fun p : ℚ × ℚ => if p.1 = 0 ∧ p.2 = 0 then (50 : ℚ)
          else 100 * (p.1 / (p.1 + p.2)))).length := rfl
    rw [this, List.length_map] at hi
    exact hi
  have hiG : i < (rsi prices config).avg_gain.values.length := by
    simp only [List.length_zip] at hilen; omega
  have hiL : i < (rsi prices config).avg_loss.values.length := by
    simp only [List.length_zip] at hilen; omega
  set g := (rsi prices config).avg_gain.values.getD i 0 with hg_def
  set l := (rsi prices config).avg_loss.values.getD i 0 with hl_def
  have hg : 0 ≤ g := by
    rw [hg_def, hGdef]
    refine ewm_mean_nonneg ((diff prices.values).map fun c => if 0 < c then c else 0)
      config.alpha (le_of_lt ha0) (le_of_lt ha1) ?_ _ (getD_mem _ _ ?_)
    · intro x hx
      simp only [List.mem_map] at hx
      obtain ⟨c, _, rfl⟩ := hx
      split <;> [linarith; exact le_refl 0]
    · rw [hGdef] at hiG; exact hiG
  have hl : 0 ≤ l := by
    rw [hl_def, hLdef]
    refine ewm_mean_nonneg ((diff prices.values).map fun c => if c < 0 then 0 - c else 0)
      config.alpha (le_of_lt ha0) (le_of_lt ha1) ?_ _ (getD_mem _ _ ?_)
    · intro x hx
      simp only [List.mem_map] at hx
      obtain ⟨c, _, rfl⟩ := hx
      split <;> [linarith; exact le_refl 0]
    · rw [hLdef] at hiL; exact hiL
  have hv : (rsi prices config).rsi.values.getD i 0 =
      if g = 0 ∧ l = 0 then 50 else 100 * (g / (g + l)) := by
    rw [hVdef]
    exact getD_map_zip _ _ _ i hiG hiL
  by_cases hzero : g = 0 ∧ l = 0
  · rw [hv, if_pos hzero]
    refine ⟨by norm_num, by norm_num, ?_⟩
    rw [if_pos hzero]
  · have hpos : 0 < g + l := by
      rcases lt_or_eq_of_le hg with h | h
      · linarith
      · rcases lt_or_eq_of_le hl with h' | h'
        · linarith
        · exact absurd ⟨h.symm, h'.symm⟩ hzero
    rw [hv, if_neg hzero]
    refine ⟨?_, ?_, ?_⟩
    · have : 0 ≤ g / (g + l) := div_nonneg hg (le_of_lt hpos)
      linarith
    · have h1 : g / (g + l) ≤ 1 := by
        rw [div_le_one hpos]; linarith
      linarith
    · rw [if_neg hzero, mul_div_assoc]

/-- C2 witness: on the two-point price series [1, 2] with alpha 1/2,
the RSI value at position 0 is 50 (both averages zero) and lies in
[0, 100]. -/
theorem C2_rsi_bounds_witness :
    0 ≤ (rsi (Series.from_vec "p" [1, 2]) ⟨14, 1/2⟩).rsi.values.getD 0 0 ∧
    (rsi (Series.from_vec "p" [1, 2]) ⟨14, 1/2⟩).rsi.values.getD 0 0 ≤ 100 ∧
    (rsi (Series.from_vec "p" [1, 2]) ⟨14, 1/2⟩).rsi.values.getD 0 0 =
      (if (rsi (Series.from_vec "p" [1, 2]) ⟨14, 1/2⟩).avg_gain.values.getD 0 0 = 0 ∧
          (rsi (Series.from_vec "p" [1, 2]) ⟨14, 1/2⟩).avg_loss.values.getD 0 0 = 0 then 50
       else 100 * (rsi (Series.from_vec "p" [1, 2]) ⟨14, 1/2⟩).avg_gain.values.getD 0 0 /
         ((rsi (Series.from_vec "p" [1, 2]) ⟨14, 1/2⟩).avg_gain.values.getD 0 0 +
          (rsi (Series.from_vec "p" [1, 2]) ⟨14, 1/2⟩).avg_loss.values.getD 0 0)) :=
  C2_rsi_bounds (Series.from_vec "p" [1, 2]) ⟨14, 1/2⟩ (by norm_num) (by norm_num) 0
    (by decide)

/-! ## NATR (src/indicators/natr.rs) -/

/-- `NatrConfig<T>` (natr.rs:8-11). -/
structure NatrConfig where
  period : ℕ
  alpha : ℚ
  deriving DecidableEq

/-- `NatrResult<T, I>` (natr.rs:61-65). -/
structure NatrResult where
  natr : Series
  true_range : Series
  atr : Series
  deriving DecidableEq

/-- `calculate_true_range` (natr.rs:126-177): loops over the high column's
indices; index 0 yields `high - low`, later indices the branchy three-way
maximum against the previous close. -/
def calculate_true_range (high low close : Series) : Series :=
  ⟨high.name ++ "_tr",
   (List.range high.values.length).map fun i =>
     if i = 0 then high.values.getD 0 0 - low.values.getD 0 0
     else
       let current_high := high.values.getD i 0
       let current_low := low.values.getD i 0
       let prev_close := close.values.getD (i - 1) 0
       let hl := current_high - current_low
       let hc := if current_high > prev_close then current_high - prev_close
                 else prev_close - current_high
       let lc := if current_low > prev_close then current_low - prev_close
                 else prev_close - current_low
       let max_hc_lc := if hc > lc then hc else lc
       if hl > max_hc_lc then hl else max_hc_lc,
   high.index⟩

/-- `calculate_natr_from_atr` (natr.rs:180-208): zips ATR with closes;
nonzero close yields `(atr / close) * hundred`, zero close yields zero. -/
def calculate_natr_from_atr (atr close : Series) : Series :=
  ⟨atr.name ++ "_natr",
   (atr.values.zip close.values).map fun p =>
     if p.2 ≠ 0 then (p.1 / p.2) * 100 else 0,
   atr.index⟩

/-- `natr` (natr.rs:99-123): true range, its EMA (the ATR), then the
normalization against the close. -/
def natr (high low close : Series) (config : NatrConfig) : NatrResult :=
  let true_range := calculate_true_range high low close
  let atr := true_range.ewm_mean config.alpha
  let natrS := calculate_natr_from_atr atr close
  ⟨natrS, true_range, atr⟩

/-- C7 : For every high/low/close input and config, each element of the NATR
output series equals 0 whenever the close at that position is 0, and
otherwise equals exactly `100 * atr[i] / close[i]`, where atr is the
exponential moving average of the true range with the config's alpha. -/
theorem C7_natr_formula (high low close : Series) (config : NatrConfig) :
    (natr high low close config).atr.values =
      ewm_mean (calculate_true_range high low close).values config.alpha ∧
    ∀ i : ℕ, i < (natr high low close config).natr.len →
      (natr high low close config).natr.values.getD i 0 =
        if close.values.getD i 0 = 0 then 0
        else 100 * (natr high low close config).atr.values.getD i 0 /
          close.values.getD i 0 := by
  refine ⟨rfl, ?_⟩
  intro i hi
  have hVdef : (natr high low close config).natr.values =
      ((natr high low close config).atr.values.zip close.values).map
        (fun p => if p.2 ≠ 0 then (p.1 / p.2) * 100 else 0) := rfl
  have hilen : i < ((natr high low close config).atr.values.zip close.values).length := by
    have : (natr high low close config).natr.len =
        (((natr high low close config).atr.values.zip close.values).map
          (fun p : ℚ × ℚ => if p.2 ≠ 0 then (p.1 / p.2) * 100 else (0 : ℚ))).length := rfl
    rw [this, List.length_map] at hi
    exact hi
  have hiA : i < (natr high low close config).atr.values.length := by
    simp only [List.length_zip] at hilen; omega
  have hiC : i < close.values.length := by
    simp only [List.length_zip] at hilen; omega
  rw [hVdef, getD_map_zip _ _ _ i hiA hiC]
  by_cases hc : close.values.getD i 0 = 0
  · rw [if_neg (fun h => h hc), if_pos hc]
  · rw [if_pos hc, if_neg hc, mul_comm, mul_div_assoc]

/-- C7 witness: with high [2, 3], low [1, 1], close [1, 2] and alpha 1/2,
the ATR is the EMA of the true range, and the NATR at position 0 is
`100 * atr[0] / close[0]` since the close there is nonzero. -/
theorem C7_natr_formula_witness :
    (natr (Series.from_vec "h" [2, 3]) (Series.from_vec "l" [1, 1])
        (Series.from_vec "c" [1, 2]) ⟨14, 1/2⟩).atr.values =
      ewm_mean (calculate_true_range (Series.from_vec "h" [2, 3])
        (Series.from_vec "l" [1, 1]) (Series.from_vec "c" [1, 2])).values (1/2) ∧
    (natr (Series.from_vec "h" [2, 3]) (Series.from_vec "l" [1, 1])
        (Series.from_vec "c" [1, 2]) ⟨14, 1/2⟩).natr.values.getD 0 0 =
      if (Series.from_vec "c" [1, 2]).values.getD 0 0 = 0 then 0
      else 100 * (natr (Series.from_vec "h" [2, 3]) (Series.from_vec "l" [1, 1])
        (Series.from_vec "c" [1, 2]) ⟨14, 1/2⟩).atr.values.getD 0 0 /
        (Series.from_vec "c" [1, 2]).values.getD 0 0 :=
  ⟨(C7_natr_formula (Series.from_vec "h" [2, 3]) (Series.from_vec "l" [1, 1])
      (Series.from_vec "c" [1, 2]) ⟨14, 1/2⟩).1,
   (C7_natr_formula (Series.from_vec "h" [2, 3]) (Series.from_vec "l" [1, 1])
      (Series.from_vec "c" [1, 2]) ⟨14, 1/2⟩).2 0 (by decide)⟩

/-! ## Error (src/core/error.rs) -/

/-- `Error` (error.rs:7-19). -/
inductive Error where
  | InvalidTimestamp (ts : ℕ)
  | NotEnoughData
  | EmptyTimeSeries
  deriving DecidableEq

/-- C3 counterexample: the price series `[1, 2]` has fewer than
`period + 1 = 15` points, yet `rsi` returns a full two-element output
series (its return type has no error at all), and likewise `natr` on
two-bar high/low/close inputs returns a full two-element output series. -/
theorem C3_counterexample_no_not_enough_data :
    ([1, 2] : List ℚ).length < 14 + 1 ∧
    (rsi (Series.from_vec "p" [1, 2]) ⟨14, 1/14⟩).rsi.len = 2 ∧
    (natr (Series.from_vec "h" [2, 3]) (Series.from_vec "l" [1, 1])
      (Series.from_vec "c" [1, 2]) ⟨14, 1/14⟩).natr.len = 2 := by
  decide

/-- C3 amended: `rsi` and `natr` perform no minimum-length validation and
have no error path: for every input, also one with fewer than `period + 1`
points, they return an output series of the input's full length (for
`natr`, the length of the high series, its loop driver, given a close
series of matching length). -/
theorem C3_amended_no_length_check (prices high low close : Series)
    (rc : RsiConfig) (nc : NatrConfig)
    (hlen : close.values.length = high.values.length) :
    (rsi prices rc).rsi.len = prices.len ∧
    (natr high low close nc).natr.len = high.len := by
  constructor
  · have hG : (rsi prices rc).avg_gain.values.length = prices.values.length := by
      show (ewm_mean ((diff prices.values).map fun c => if 0 < c then c else 0)
        rc.alpha).length = _
      rw [ewm_mean_length, List.length_map, diff_length]
    have hL : (rsi prices rc).avg_loss.values.length = prices.values.length := by
      show (ewm_mean ((diff prices.values).map fun c => if c < 0 then 0 - c else 0)
        rc.alpha).length = _
      rw [ewm_mean_length, List.length_map, diff_length]
    show (((rsi prices rc).avg_gain.values.zip (rsi prices rc).avg_loss.values).map
      (fun p : ℚ × ℚ => if p.1 = 0 ∧ p.2 = 0 then (50 : ℚ)
        else 100 * (p.1 / (p.1 + p.2)))).length = _
    rw [List.length_map, List.length_zip, hG, hL, Nat.min_self]
    rfl
  · have hA : (natr high low close nc).atr.values.length = high.values.length := by
      show (ewm_mean (calculate_true_range high low close).values nc.alpha).length = _
      rw [ewm_mean_length]
      show ((List.range high.values.length).map _).length = _
      rw [List.length_map, List.length_range]
    show (((natr high low close nc).atr.values.zip close.values).map
      (fun p : ℚ × ℚ => if p.2 ≠ 0 then (p.1 / p.2) * 100 else (0 : ℚ))).length = _
    rw [List.length_map, List.length_zip, hA, hlen, Nat.min_self]
    rfl

/-- C3 amended witness: at the same short inputs, the outputs have the
inputs' lengths. -/
theorem C3_amended_no_length_check_witness :
    (rsi (Series.from_vec "p" [1, 2]) ⟨14, 1/14⟩).rsi.len =
      (Series.from_vec "p" [1, 2]).len ∧
    (natr (Series.from_vec "h" [2, 3]) (Series.from_vec "l" [1, 1])
        (Series.from_vec "c" [1, 2]) ⟨14, 1/14⟩).natr.len =
      (Series.from_vec "h" [2, 3]).len :=
  C3_amended_no_length_check (Series.from_vec "p" [1, 2]) (Series.from_vec "h" [2, 3])
    (Series.from_vec "l" [1, 1]) (Series.from_vec "c" [1, 2]) ⟨14, 1/14⟩ ⟨14, 1/14⟩
    (by decide)

/-! ## Candle & CandleSeries (src/core/candle.rs)

Timestamps are Rust `u64`, embedded as `ℕ`. Rust's `ts % timeframe`
panics when `timeframe == 0`; the tick-ingestion functions therefore
return `Option`, with `none` standing for that panic. An `Err` from the
strict `push` is a normal return, carried in the `Except` component
alongside the (unchanged) series state.
-/

/-- `Candle<T>` (candle.rs:10-16). `open` is a Lean keyword, so that field
carries a trailing underscore. -/
structure Candle where
  open_ : ℚ
  high : ℚ
  low : ℚ
  close : ℚ
  volume : ℚ
  deriving DecidableEq

/-- `Candle::true_range` (candle.rs:242-248): `hl.max(hc).max(lc)`. -/
def Candle.true_range (c prev : Candle) : ℚ :=
  let hl := c.high - c.low
  let hc := |c.high - prev.close|
  let lc := |c.low - prev.close|
  max (max hl hc) lc

/-- `CandleSeries<T>` (candle.rs:30-38): five parallel price/volume
columns, the bucket-start timestamps, and the fixed timeframe. -/
structure CandleSeries where
  opens : List ℚ
  highs : List ℚ
  lows : List ℚ
  closes : List ℚ
  volumes : List ℚ
  timestamps : List ℕ
  timeframe : ℕ
  deriving DecidableEq

namespace CandleSeries

/-- `CandleSeries::new` (candle.rs:42-52): empty columns, any timeframe. -/
def new (timeframe : ℕ) : CandleSeries :=
  ⟨[], [], [], [], [], [], timeframe⟩

/-- `CandleSeries::len` (candle.rs:108-110): the timestamp count. -/
def len (s : CandleSeries) : ℕ := s.timestamps.length

/-- `CandleSeries::is_empty` (candle.rs:113-115). -/
def isEmpty (s : CandleSeries) : Bool := s.timestamps.isEmpty

/-- `CandleSeries::get` (candle.rs:80-91): `none` when the index is at or
past `len`; otherwise reads all five columns at the index (a column
shorter than `len` would be a Rust panic, also rendered `none` here — the
parallel-length invariant makes that case unreachable). -/
def get (s : CandleSeries) (index : ℕ) : Option Candle :=
  if index ≥ s.len then none
  else
    match s.opens[index]?, s.highs[index]?, s.lows[index]?,
      s.closes[index]?, s.volumes[index]? with
    | some o, some h, some l, some c, some v => some ⟨o, h, l, c, v⟩
    | _, _, _, _, _ => none

/-- `CandleSeries::get_owned` (candle.rs:94-105): same reads as `get`,
returning the candle by value. -/
def get_owned (s : CandleSeries) (index : ℕ) : Option Candle :=
  if index ≥ s.len then none
  else
    match s.opens[index]?, s.highs[index]?, s.lows[index]?,
      s.closes[index]?, s.volumes[index]? with
    | some o, some h, some l, some c, some v => some ⟨o, h, l, c, v⟩
    | _, _, _, _, _ => none

/-- `CandleSeries::push_new_candle` (candle.rs:218-225): append a candle
with `open = high = low = close = price`. -/
def push_new_candle (s : CandleSeries) (price vol : ℚ) (start_ts : ℕ) : CandleSeries :=
  { s with
    opens := s.opens ++ [price]
    highs := s.highs ++ [price]
    lows := s.lows ++ [price]
    closes := s.closes ++ [price]
    volumes := s.volumes ++ [vol]
    timestamps := s.timestamps ++ [start_ts] }

/-- `CandleSeries::update_last_candle` (candle.rs:227-237): raise the high
and lower the low if the price escapes them, overwrite the close, add the
volume; all at index `len - 1`. -/
def update_last_candle (s : CandleSeries) (price vol : ℚ) : CandleSeries :=
  let i := s.len - 1
  { s with
    highs := if price > s.highs.getD i 0 then s.highs.set i price else s.highs
    lows := if price < s.lows.getD i 0 then s.lows.set i price else s.lows
    closes := s.closes.set i price
    volumes := s.volumes.set i (s.volumes.getD i 0 + vol) }

/-- `CandleSeries::push` (candle.rs:119-145): strict tick ingestion.
`none` models the `ts % 0` panic; otherwise the bucket start is compared
with the last stored bucket start (Greater → new candle, Equal → update in
place, Less → `InvalidTimestamp` with no mutation). -/
def push (s : CandleSeries) (price vol : ℚ) (ts : ℕ) :
    Option (CandleSeries × Except Error Unit) :=
  if s.timeframe = 0 then none
  else
    let next_start := ts - ts % s.timeframe
    match s.timestamps.getLast? with
    | none => some (s.push_new_candle price vol next_start, Except.ok ())
    | some last_ts =>
      if next_start > last_ts then
        some (s.push_new_candle price vol next_start, Except.ok ())
      else if next_start = last_ts then
        some (s.update_last_candle price vol, Except.ok ())
      else
        some (s, Except.error (Error.InvalidTimestamp next_start))

/-- `CandleSeries::push_unchecked` (candle.rs:149-171): lenient tick
ingestion; an out-of-order tick is silently dropped. `none` models the
`ts % 0` panic. -/
def push_unchecked (s : CandleSeries) (price vol : ℚ) (ts : ℕ) :
    Option CandleSeries :=
  if s.timeframe = 0 then none
  else
    let next_start := ts - ts % s.timeframe
    match s.timestamps.getLast? with
    | none => some (s.push_new_candle price vol next_start)
    | some last_ts =>
      if next_start > last_ts then some (s.push_new_candle price vol next_start)
      else if next_start = last_ts then some (s.update_last_candle price vol)
      else some s

/-- `CandleSeries::push_candle_unchecked` (candle.rs:174-181): append a
fully-formed candle with no validation. -/
def push_candle_unchecked (s : CandleSeries) (candle : Candle) (ts : ℕ) : CandleSeries :=
  { s with
    opens := s.opens ++ [candle.open_]
    highs := s.highs ++ [candle.high]
    lows := s.lows ++ [candle.low]
    closes := s.closes ++ [candle.close]
    volumes := s.volumes ++ [candle.volume]
    timestamps := s.timestamps ++ [ts] }

/-- The `self.get(i).unwrap()` reads inside `true_range`
(candle.rs:204,209); the default stands for the panic, unreachable on a
well-formed series. -/
def candleAt (s : CandleSeries) (i : ℕ) : Candle :=
  (s.get i).getD ⟨0, 0, 0, 0, 0⟩

/-- `CandleSeries::true_range` (candle.rs:191-215): empty series gives an
empty column; otherwise one value for each index in
`start..len` with `start = len.saturating_sub(max)` under
`Some(max)` and `0` under `None`; index 0 is `high - low`, later indices
use `Candle::true_range` against the preceding stored candle. -/
def true_range (s : CandleSeries) (max_history : Option ℕ) : List ℚ :=
  if s.isEmpty then []
  else
    let start := match max_history with
      | some m => s.len - m
      | none => 0
    (List.range' start (s.len - start)).map fun i =>
      if i = 0 then (s.candleAt 0).high - (s.candleAt 0).low
      else (s.candleAt i).true_range (s.candleAt (i - 1))

end CandleSeries

/-- C10 : `CandleSeries::new` accepts timeframe 0 without error, but on
such a series every `push`/`push_unchecked` evaluates `ts % 0` and panics
(modelled as `none`); for every nonzero timeframe, `push` and
`push_unchecked` never panic for any tick. -/
theorem C10_push_panics_iff_timeframe_zero :
    (CandleSeries.new 0).timeframe = 0 ∧
    (∀ (s : CandleSeries) (p v : ℚ) (ts : ℕ), s.timeframe = 0 →
      s.push p v ts = none ∧ s.push_unchecked p v ts = none) ∧
    (∀ (s : CandleSeries) (p v : ℚ) (ts : ℕ), s.timeframe ≠ 0 →
      (s.push p v ts).isSome ∧ (s.push_unchecked p v ts).isSome) := by
  refine ⟨rfl, ?_, ?_⟩
  · intro s p v ts h
    constructor
    · simp [CandleSeries.push, h]
    · simp [CandleSeries.push_unchecked, h]
  · intro s p v ts h
    constructor
    · simp only [CandleSeries.push, if_neg h]
      cases s.timestamps.getLast? with
      | none => simp
      | some last =>
        split
        · simp
        · split
          · simp
          · split <;> simp
    · simp only [CandleSeries.push_unchecked, if_neg h]
      cases s.timestamps.getLast? with
      | none => simp
      | some last =>
        split
        · simp
        · split
          · simp
          · split <;> simp

/-- C10 witness: `new 0` stores timeframe 0; pushing the tick
(price 1, volume 1, ts 5) into it panics both strictly and leniently,
while the same tick into `new 10` panics in neither mode. -/
theorem C10_push_panics_iff_timeframe_zero_witness :
    (CandleSeries.new 0).timeframe = 0 ∧
    ((CandleSeries.new 0).push 1 1 5 = none ∧
      (CandleSeries.new 0).push_unchecked 1 1 5 = none) ∧
    (((CandleSeries.new 10).push 1 1 5).isSome ∧
      ((CandleSeries.new 10).push_unchecked 1 1 5).isSome) :=
  ⟨C10_push_panics_iff_timeframe_zero.1,
   C10_push_panics_iff_timeframe_zero.2.1 (CandleSeries.new 0) 1 1 5 rfl,
   C10_push_panics_iff_timeframe_zero.2.2 (CandleSeries.new 10) 1 1 5 (by decide)⟩

/-- C4 : For every non-empty CandleSeries and every tick whose computed
bucket start `ts - ts % timeframe` is strictly below the last stored
bucket start, the strict `push` returns `InvalidTimestamp` (carrying the
bucket start) and returns the series itself, completely unmodified. -/
theorem C4_strict_push_out_of_order (s : CandleSeries) (p v : ℚ) (ts last : ℕ)
    (htf : s.timeframe ≠ 0)
    (hlast : s.timestamps.getLast? = some last)
    (hlt : ts - ts % s.timeframe < last) :
    s.push p v ts =
      some (s, Except.error (Error.InvalidTimestamp (ts - ts % s.timeframe))) := by
  simp only [CandleSeries.push, if_neg htf, hlast]
  rw [if_neg (by omega), if_neg (by omega)]

/-- C4 witness: a one-candle series at bucket 100 with timeframe 10
rejects the tick (price 2, volume 3, ts 5), whose bucket start 0 is below
100, returning `InvalidTimestamp 0` and the untouched series. -/
theorem C4_strict_push_out_of_order_witness :
    CandleSeries.push ⟨[1], [1], [1], [1], [1], [100], 10⟩ 2 3 5 =
      some (⟨[1], [1], [1], [1], [1], [100], 10⟩,
        Except.error (Error.InvalidTimestamp (5 - 5 % 10))) :=
  C4_strict_push_out_of_order ⟨[1], [1], [1], [1], [1], [100], 10⟩ 2 3 5 100
    (by decide) (by decide) (by decide)

namespace CandleSeries

/-- The parallel-columns invariant: the five price/volume columns have the
timestamp sequence's length. -/
def wf (s : CandleSeries) : Prop :=
  s.opens.length = s.timestamps.length ∧
  s.highs.length = s.timestamps.length ∧
  s.lows.length = s.timestamps.length ∧
  s.closes.length = s.timestamps.length ∧
  s.volumes.length = s.timestamps.length

/-- Series states reachable from `new` via the three ingestion paths
(`some`-results only, i.e. runs that do not hit the `ts % 0` panic). -/
inductive Reachable : CandleSeries → Prop
  | new (tf : ℕ) : Reachable (new tf)
  | push (s s' : CandleSeries) (p v : ℚ) (ts : ℕ) (r : Except Error Unit)
      (hs : Reachable s) (h : s.push p v ts = some (s', r)) : Reachable s'
  | push_unchecked (s s' : CandleSeries) (p v : ℚ) (ts : ℕ)
      (hs : Reachable s) (h : s.push_unchecked p v ts = some s') : Reachable s'
  | push_candle_unchecked (s : CandleSeries) (c : Candle) (ts : ℕ)
      (hs : Reachable s) : Reachable (s.push_candle_unchecked c ts)

theorem wf_new (tf : ℕ) : wf (new tf) := by
  refine ⟨rfl, rfl, rfl, rfl, rfl⟩

theorem wf_push_new_candle (s : CandleSeries) (p v : ℚ) (ts : ℕ) (h : wf s) :
    wf (s.push_new_candle p v ts) := by
  obtain ⟨h1, h2, h3, h4, h5⟩ := h
  refine ⟨?_, ?_, ?_, ?_, ?_⟩ <;>
    simp [push_new_candle, h1, h2, h3, h4, h5]

theorem wf_update_last_candle (s : CandleSeries) (p v : ℚ) (h : wf s) :
    wf (s.update_last_candle p v) := by
  obtain ⟨h1, h2, h3, h4, h5⟩ := h
  refine ⟨?_, ?_, ?_, ?_, ?_⟩ <;>
    simp only [update_last_candle] <;>
    first
      | (split <;> simp [h1, h2, h3, h4, h5])
      | simp [h1, h2, h3, h4, h5]

theorem wf_push_candle_unchecked (s : CandleSeries) (c : Candle) (ts : ℕ) (h : wf s) :
    wf (s.push_candle_unchecked c ts) := by
  obtain ⟨h1, h2, h3, h4, h5⟩ := h
  refine ⟨?_, ?_, ?_, ?_, ?_⟩ <;>
    simp [push_candle_unchecked, h1, h2, h3, h4, h5]

theorem wf_push (s s' : CandleSeries) (p v : ℚ) (ts : ℕ) (r : Except Error Unit)
    (h : s.push p v ts = some (s', r)) (hw : wf s) : wf s' := by
  simp only [push] at h
  split at h
  · exact absurd h (by simp)
  · split at h
    · rw [Option.some_inj] at h
      rw [show s' = s.push_new_candle p v (ts - ts % s.timeframe) from
        congrArg Prod.fst h.symm]
      exact wf_push_new_candle s p v _ hw
    · split at h
      · rw [Option.some_inj] at h
        rw [show s' = s.push_new_candle p v (ts - ts % s.timeframe) from
          congrArg Prod.fst h.symm]
        exact wf_push_new_candle s p v _ hw
      · split at h
        · rw [Option.some_inj] at h
          rw [show s' = s.update_last_candle p v from congrArg Prod.fst h.symm]
          exact wf_update_last_candle s p v hw
        · rw [Option.some_inj] at h
          rw [show s' = s from congrArg Prod.fst h.symm]
          exact hw

theorem wf_push_unchecked (s s' : CandleSeries) (p v : ℚ) (ts : ℕ)
    (h : s.push_unchecked p v ts = some s') (hw : wf s) : wf s' := by
  simp only [push_unchecked] at h
  split at h
  · exact absurd h (by simp)
  · split at h
    · rw [Option.some_inj] at h
      rw [← h]
      exact wf_push_new_candle s p v _ hw
    · split at h
      · rw [Option.some_inj] at h
        rw [← h]
        exact wf_push_new_candle s p v _ hw
      · split at h
        · rw [Option.some_inj] at h
          rw [← h]
          exact wf_update_last_candle s p v hw
        · rw [Option.some_inj] at h
          rw [← h]
          exact hw

theorem wf_of_reachable (s : CandleSeries) (h : Reachable s) : wf s := by
  induction h with
  | new tf => exact wf_new tf
  | push s s' p v ts r hs hp ih => exact wf_push s s' p v ts r hp ih
  | push_unchecked s s' p v ts hs hp ih => exact wf_push_unchecked s s' p v ts hp ih
  | push_candle_unchecked s c ts hs ih => exact wf_push_candle_unchecked s c ts ih

/-- On a well-formed series, `get` succeeds exactly below `len`. -/
theorem get_isSome_iff (s : CandleSeries) (hw : wf s) (i : ℕ) :
    (s.get i).isSome ↔ i < s.len := by
  obtain ⟨h1, h2, h3, h4, h5⟩ := hw
  constructor
  · intro h
    by_contra hge
    simp [get, ge_iff_le, Nat.le_of_not_lt hge] at h
  · intro hlt
    have hb1 : i < s.opens.length := by rw [h1]; exact hlt
    have hb2 : i < s.highs.length := by rw [h2]; exact hlt
    have hb3 : i < s.lows.length := by rw [h3]; exact hlt
    have hb4 : i < s.closes.length := by rw [h4]; exact hlt
    have hb5 : i < s.volumes.length := by rw [h5]; exact hlt
    have e1 := List.getElem?_eq_getElem hb1
    have e2 := List.getElem?_eq_getElem hb2
    have e3 := List.getElem?_eq_getElem hb3
    have e4 := List.getElem?_eq_getElem hb4
    have e5 := List.getElem?_eq_getElem hb5
    simp [get, Nat.not_le_of_lt hlt, e1, e2, e3, e4, e5]

/-- Same for `get_owned`, whose body performs the same reads. -/
theorem get_owned_isSome_iff (s : CandleSeries) (hw : wf s) (i : ℕ) :
    (s.get_owned i).isSome ↔ i < s.len := by
  obtain ⟨h1, h2, h3, h4, h5⟩ := hw
  constructor
  · intro h
    by_contra hge
    simp [get_owned, ge_iff_le, Nat.le_of_not_lt hge] at h
  · intro hlt
    have hb1 : i < s.opens.length := by rw [h1]; exact hlt
    have hb2 : i < s.highs.length := by rw [h2]; exact hlt
    have hb3 : i < s.lows.length := by rw [h3]; exact hlt
    have hb4 : i < s.closes.length := by rw [h4]; exact hlt
    have hb5 : i < s.volumes.length := by rw [h5]; exact hlt
    have e1 := List.getElem?_eq_getElem hb1
    have e2 := List.getElem?_eq_getElem hb2
    have e3 := List.getElem?_eq_getElem hb3
    have e4 := List.getElem?_eq_getElem hb4
    have e5 := List.getElem?_eq_getElem hb5
    simp [get_owned, Nat.not_le_of_lt hlt, e1, e2, e3, e4, e5]

end CandleSeries

/-- C9 : For every CandleSeries reachable from `new(timeframe)` by any
sequence of `push`, `push_unchecked`, and `push_candle_unchecked` calls,
the six parallel sequences have equal length; consequently `get(i)` and
`get_owned(i)` return Some exactly when `i < len()` and None otherwise. -/
theorem C9_parallel_columns (s : CandleSeries) (h : CandleSeries.Reachable s) :
    (s.opens.length = s.timestamps.length ∧
     s.highs.length = s.timestamps.length ∧
     s.lows.length = s.timestamps.length ∧
     s.closes.length = s.timestamps.length ∧
     s.volumes.length = s.timestamps.length) ∧
    ∀ i : ℕ, ((s.get i).isSome ↔ i < s.len) ∧ ((s.get_owned i).isSome ↔ i < s.len) := by
  have hw := CandleSeries.wf_of_reachable s h
  exact ⟨hw, fun i =>
    ⟨CandleSeries.get_isSome_iff s hw i, CandleSeries.get_owned_isSome_iff s hw i⟩⟩

/-- C9 witness: the series obtained from `new 10` by one strict push is
reachable; its columns are parallel, and `get`/`get_owned` succeed at 0
and fail at 1, matching its length 1. -/
theorem C9_parallel_columns_witness :
    (((CandleSeries.new 10).push_new_candle 7 1 0).opens.length =
      ((CandleSeries.new 10).push_new_candle 7 1 0).timestamps.length ∧
     ((CandleSeries.new 10).push_new_candle 7 1 0).highs.length =
      ((CandleSeries.new 10).push_new_candle 7 1 0).timestamps.length ∧
     ((CandleSeries.new 10).push_new_candle 7 1 0).lows.length =
      ((CandleSeries.new 10).push_new_candle 7 1 0).timestamps.length ∧
     ((CandleSeries.new 10).push_new_candle 7 1 0).closes.length =
      ((CandleSeries.new 10).push_new_candle 7 1 0).timestamps.length ∧
     ((CandleSeries.new 10).push_new_candle 7 1 0).volumes.length =
      ((CandleSeries.new 10).push_new_candle 7 1 0).timestamps.length) ∧
    ∀ i : ℕ,
      ((((CandleSeries.new 10).push_new_candle 7 1 0).get i).isSome ↔
        i < ((CandleSeries.new 10).push_new_candle 7 1 0).len) ∧
      ((((CandleSeries.new 10).push_new_candle 7 1 0).get_owned i).isSome ↔
        i < ((CandleSeries.new 10).push_new_candle 7 1 0).len) :=
  C9_parallel_columns ((CandleSeries.new 10).push_new_candle 7 1 0)
    (CandleSeries.Reachable.push (CandleSeries.new 10) _ 7 1 5 (Except.ok ())
      (CandleSeries.Reachable.new 10) rfl)

/-- Maximum of a nonempty list (left fold, as the running-max update of
`update_last_candle` accumulates it). -/
def listMax : List ℚ → ℚ
  | [] => 0
  | x :: xs => xs.foldl max x

/-- Minimum of a nonempty list. -/
def listMin : List ℚ → ℚ
  | [] => 0
  | x :: xs => xs.foldl min x

/-- Driver that feeds ticks one by one into the strict `push`
(the ingestion loop of the library's documented usage); `none` when a
push panics or is rejected. -/
def pushAll (s : CandleSeries) : List (ℚ × ℚ × ℕ) → Option CandleSeries
  | [] => some s
  | t :: rest =>
    match s.push t.1 t.2.1 t.2.2 with
    | some (s', Except.ok _) => pushAll s' rest
    | _ => none

theorem foldl_pick_getLastD (l : List (ℚ × ℚ × ℕ)) (a : ℚ) :
    l.foldl (fun _ t => t.1) a = (a :: l.map fun t => t.1).getLastD 0 := by
  induction l generalizing a with
  | nil => rfl
  | cons x xs ih =>
    rw [List.foldl_cons, ih x.1, List.map_cons]
    simp [List.getLastD_cons]

theorem foldl_add_vol (l : List (ℚ × ℚ × ℕ)) (a : ℚ) :
    l.foldl (fun x t => x + t.2.1) a = a + (l.map fun t => t.2.1).sum := by
  induction l generalizing a with
  | nil => simp
  | cons x xs ih => simp [ih, add_assoc]

/-- One strict push of a tick in the same bucket onto a one-candle series
updates the candle in place: running max/min/last/sum. -/
theorem push_same_bucket_step (tf b : ℕ) (htf : tf ≠ 0)
    (t : ℚ × ℚ × ℕ) (o hi lo c v : ℚ) (hbt : t.2.2 - t.2.2 % tf = b) :
    CandleSeries.push ⟨[o], [hi], [lo], [c], [v], [b], tf⟩ t.1 t.2.1 t.2.2 =
      some (⟨[o], [max hi t.1], [min lo t.1], [t.1], [v + t.2.1], [b], tf⟩,
        Except.ok ()) := by
  simp only [CandleSeries.push, CandleSeries.update_last_candle, CandleSeries.len,
    if_neg htf, hbt, List.getLast?_singleton, lt_irrefl, if_false, if_pos rfl]
  by_cases hgt : t.1 > hi
  · by_cases hlt : t.1 < lo
    · simp [hgt, hlt, max_eq_right (le_of_lt hgt), min_eq_right (le_of_lt hlt)]
    · simp [hgt, hlt, max_eq_right (le_of_lt hgt), min_eq_left (le_of_not_lt hlt)]
  · by_cases hlt : t.1 < lo
    · simp [hgt, hlt, max_eq_left (le_of_not_lt hgt), min_eq_right (le_of_lt hlt)]
    · simp [hgt, hlt, max_eq_left (le_of_not_lt hgt), min_eq_left (le_of_not_lt hlt)]

/-- Feeding any sequence of same-bucket ticks into a one-candle series
keeps a single candle holding the running max, min, last price and summed
volume. -/
theorem pushAll_same_bucket (tf b : ℕ) (htf : tf ≠ 0) :
    ∀ (ticks : List (ℚ × ℚ × ℕ)) (o hi lo c v : ℚ),
      (∀ t ∈ ticks, t.2.2 - t.2.2 % tf = b) →
      pushAll ⟨[o], [hi], [lo], [c], [v], [b], tf⟩ ticks =
        some ⟨[o], [ticks.foldl (fun a t => max a t.1) hi],
              [ticks.foldl (fun a t => min a t.1) lo],
              [ticks.foldl (fun _ t => t.1) c],
              [ticks.foldl (fun a t => a + t.2.1) v], [b], tf⟩ := by
  intro ticks
  induction ticks with
  | nil => intro o hi lo c v _; rfl
  | cons t rest ih =>
    intro o hi lo c v hb
    have hbt : t.2.2 - t.2.2 % tf = b := hb t (List.mem_cons_self t rest)
    rw [show pushAll ⟨[o], [hi], [lo], [c], [v], [b], tf⟩ (t :: rest) =
        match CandleSeries.push ⟨[o], [hi], [lo], [c], [v], [b], tf⟩ t.1 t.2.1 t.2.2 with
        | some (s', Except.ok _) => pushAll s' rest
        | _ => none from rfl]
    rw [push_same_bucket_step tf b htf t o hi lo c v hbt]
    simp only [List.foldl_cons]
    exact ih o (max hi t.1) (min lo t.1) t.1 (v + t.2.1)
      (fun u hu => hb u (List.mem_cons_of_mem t hu))

/-- C5 : For every non-empty sequence of ticks whose timestamps all fall in
one timeframe bucket, pushing them in order into an empty CandleSeries
yields exactly one candle whose open is the first tick's price, close is
the last tick's price, high is the maximum tick price, low is the minimum
tick price, and volume is the sum of tick volumes. -/
theorem C5_single_bucket_aggregation (tf : ℕ) (htf : tf ≠ 0)
    (t0 : ℚ × ℚ × ℕ) (rest : List (ℚ × ℚ × ℕ))
    (hb : ∀ t ∈ t0 :: rest, t.2.2 - t.2.2 % tf = t0.2.2 - t0.2.2 % tf) :
    ∃ s : CandleSeries,
      pushAll (CandleSeries.new tf) (t0 :: rest) = some s ∧
      s.len = 1 ∧
      s.opens = [t0.1] ∧
      s.closes = [((t0 :: rest).map fun t => t.1).getLastD 0] ∧
      s.highs = [listMax ((t0 :: rest).map fun t => t.1)] ∧
      s.lows = [listMin ((t0 :: rest).map fun t => t.1)] ∧
      s.volumes = [((t0 :: rest).map fun t => t.2.1).sum] := by
  have hfirst : CandleSeries.push (CandleSeries.new tf) t0.1 t0.2.1 t0.2.2 =
      some (⟨[t0.1], [t0.1], [t0.1], [t0.1], [t0.2.1],
        [t0.2.2 - t0.2.2 % tf], tf⟩, Except.ok ()) := by
    simp only [CandleSeries.push, CandleSeries.new, if_neg htf]
    rfl
  refine ⟨⟨[t0.1], [rest.foldl (fun a t => max a t.1) t0.1],
    [rest.foldl (fun a t => min a t.1) t0.1],
    [rest.foldl (fun _ t => t.1) t0.1],
    [rest.foldl (fun x t => x + t.2.1) t0.2.1],
    [t0.2.2 - t0.2.2 % tf], tf⟩, ?_, rfl, rfl, ?_, ?_, ?_, ?_⟩
  · rw [show pushAll (CandleSeries.new tf) (t0 :: rest) =
        (match CandleSeries.push (CandleSeries.new tf) t0.1 t0.2.1 t0.2.2 with
         | some (s', Except.ok _) => pushAll s' rest
         | _ => none) from rfl]
    rw [hfirst]
    exact pushAll_same_bucket tf (t0.2.2 - t0.2.2 % tf) htf rest
      t0.1 t0.1 t0.1 t0.1 t0.2.1
      (fun u hu => hb u (List.mem_cons_of_mem t0 hu))
  · rw [List.map_cons]
    exact congrArg (fun q => [q]) (foldl_pick_getLastD rest t0.1)
  · rw [List.map_cons]
    refine congrArg (fun q => [q]) ?_
    show rest.foldl (fun a t => max a t.1) t0.1 =
      (rest.map fun t => t.1).foldl max t0.1
    rw [List.foldl_map]
  · rw [List.map_cons]
    refine congrArg (fun q => [q]) ?_
    show rest.foldl (fun a t => min a t.1) t0.1 =
      (rest.map fun t => t.1).foldl min t0.1
    rw [List.foldl_map]
  · rw [List.map_cons, List.sum_cons]
    exact congrArg (fun q => [q]) (foldl_add_vol rest t0.2.1)

/-- C5 witness: ticks (3, 2, ts 1), (5, 1, ts 4), (4, 7, ts 9), all in the
timeframe-10 bucket starting at 0, aggregate to the single candle
O:3 H:5 L:3 C:4 V:10. -/
theorem C5_single_bucket_aggregation_witness :
    ∃ s : CandleSeries,
      pushAll (CandleSeries.new 10) [(3, 2, 1), (5, 1, 4), (4, 7, 9)] = some s ∧
      s.len = 1 ∧
      s.opens = [(3 : ℚ)] ∧
      s.closes = [(([(3, 2, 1), (5, 1, 4), (4, 7, 9)] :
        List (ℚ × ℚ × ℕ)).map fun t => t.1).getLastD 0] ∧
      s.highs = [listMax (([(3, 2, 1), (5, 1, 4), (4, 7, 9)] :
        List (ℚ × ℚ × ℕ)).map fun t => t.1)] ∧
      s.lows = [listMin (([(3, 2, 1), (5, 1, 4), (4, 7, 9)] :
        List (ℚ × ℚ × ℕ)).map fun t => t.1)] ∧
      s.volumes = [(([(3, 2, 1), (5, 1, 4), (4, 7, 9)] :
        List (ℚ × ℚ × ℕ)).map fun t => t.2.1).sum] :=
  C5_single_bucket_aggregation 10 (by decide) (3, 2, 1) [(5, 1, 4), (4, 7, 9)]
    (by decide)

/-- The `start` of the `true_range` window (candle.rs:197-200):
`len.saturating_sub(max)` under `Some(max)`, `0` under `None`. -/
def trStart (s : CandleSeries) (mh : Option ℕ) : ℕ :=
  match mh with
  | some m => s.len - m
  | none => 0

theorem if_gt_sub_abs (a b : ℚ) : (if a > b then a - b else b - a) = |a - b| := by
  by_cases h : a > b
  · rw [if_pos h, abs_of_pos (sub_pos.mpr h)]
  · rw [if_neg h, abs_of_nonpos (sub_nonpos.mpr (le_of_not_lt h)), neg_sub]

theorem if_gt_max (x y : ℚ) : (if x > y then x else y) = max x y := by
  by_cases h : x > y
  · rw [if_pos h, max_eq_left (le_of_lt h)]
  · rw [if_neg h, max_eq_right (le_of_not_lt h)]

theorem getD_map_range' (st n j : ℕ) (f : ℕ → ℚ) (h : j < n) :
    ((List.range' st n).map f).getD j 0 = f (st + j) := by
  have h1 : j < ((List.range' st n).map f).length := by simp [h]
  rw [List.getD_eq_getElem _ _ h1, List.getElem_map, List.getElem_range', one_mul]

theorem getD_map_range (n i : ℕ) (f : ℕ → ℚ) (h : i < n) :
    ((List.range n).map f).getD i 0 = f i := by
  have h1 : i < ((List.range n).map f).length := by simp [h]
  rw [List.getD_eq_getElem _ _ h1, List.getElem_map, List.getElem_range]

/-- C6 : On a non-empty CandleSeries, `true_range(max_history)` returns one
value per candle in the windowed range `start..len`; the series' first
candle gets `high - low` and every later candle the three-way max against
the previous stored candle's close. The same rule, with first element
`high - low`, holds for the true range computed over three parallel
high/low/close Series by `calculate_true_range`. -/
theorem C6_true_range_spec (s : CandleSeries) (mh : Option ℕ)
    (hne : s.timestamps ≠ []) (high low close : Series)
    (hlo : low.values.length = high.values.length)
    (hcl : close.values.length = high.values.length) :
    ((s.true_range mh).length = s.len - trStart s mh ∧
     ∀ j : ℕ, j < s.len - trStart s mh →
       (s.true_range mh).getD j 0 =
         if trStart s mh + j = 0 then
           (s.candleAt 0).high - (s.candleAt 0).low
         else
           max (max ((s.candleAt (trStart s mh + j)).high -
                     (s.candleAt (trStart s mh + j)).low)
                    |(s.candleAt (trStart s mh + j)).high -
                     (s.candleAt (trStart s mh + j - 1)).close|)
               |(s.candleAt (trStart s mh + j)).low -
                (s.candleAt (trStart s mh + j - 1)).close|) ∧
    ((calculate_true_range high low close).values.length = high.values.length ∧
     ∀ i : ℕ, i < high.values.length →
       (calculate_true_range high low close).values.getD i 0 =
         if i = 0 then high.values.getD 0 0 - low.values.getD 0 0
         else
           max (max (high.values.getD i 0 - low.values.getD i 0)
                    |high.values.getD i 0 - close.values.getD (i - 1) 0|)
               |low.values.getD i 0 - close.values.getD (i - 1) 0|) := by
  have hemp : s.isEmpty = false := by
    unfold CandleSeries.isEmpty
    cases h : s.timestamps with
    | nil => exact absurd h hne
    | cons a l => rfl
  have htr : s.true_range mh =
      (List.range' (trStart s mh) (s.len - trStart s mh)).map fun i =>
        if i = 0 then (s.candleAt 0).high - (s.candleAt 0).low
        else (s.candleAt i).true_range (s.candleAt (i - 1)) := by
    unfold CandleSeries.true_range
    rw [hemp]
    rfl
  refine ⟨⟨?_, ?_⟩, ?_, ?_⟩
  · rw [htr, List.length_map, List.length_range']
  · intro j hj
    rw [htr, getD_map_range' _ _ _ _ hj]
    by_cases h0 : trStart s mh + j = 0
    · rw [if_pos h0, if_pos h0]
    · rw [if_neg h0, if_neg h0]
      rfl
  · show ((List.range high.values.length).map _).length = _
    rw [List.length_map, List.length_range]
  · intro i hi
    show ((List.range high.values.length).map _).getD i 0 = _
    rw [getD_map_range _ _ _ hi]
    by_cases h0 : i = 0
    · rw [if_pos h0, if_pos h0]
    · rw [if_neg h0, if_neg h0]
      simp only [if_gt_sub_abs, if_gt_max]
      rw [← max_assoc]

/-- C6 witness: a concrete two-candle series (buckets 0 and 10) with the
full window, and the two-bar high/low/close series [2,3]/[1,1]/[1,2];
lengths and the element rules at index 1 are checked through the
theorem. -/
theorem C6_true_range_spec_witness :
    ((CandleSeries.true_range ⟨[1, 2], [3, 5], [0, 1], [2, 4], [1, 1], [0, 10], 10⟩
        none).length =
      CandleSeries.len ⟨[1, 2], [3, 5], [0, 1], [2, 4], [1, 1], [0, 10], 10⟩ -
      trStart ⟨[1, 2], [3, 5], [0, 1], [2, 4], [1, 1], [0, 10], 10⟩ none ∧
     (CandleSeries.true_range ⟨[1, 2], [3, 5], [0, 1], [2, 4], [1, 1], [0, 10], 10⟩
        none).getD 1 0 =
      if trStart ⟨[1, 2], [3, 5], [0, 1], [2, 4], [1, 1], [0, 10], 10⟩ none + 1 = 0 then
        (CandleSeries.candleAt ⟨[1, 2], [3, 5], [0, 1], [2, 4], [1, 1], [0, 10], 10⟩
          0).high -
        (CandleSeries.candleAt ⟨[1, 2], [3, 5], [0, 1], [2, 4], [1, 1], [0, 10], 10⟩
          0).low
      else
        max (max ((CandleSeries.candleAt
              ⟨[1, 2], [3, 5], [0, 1], [2, 4], [1, 1], [0, 10], 10⟩
              (trStart ⟨[1, 2], [3, 5], [0, 1], [2, 4], [1, 1], [0, 10], 10⟩ none +
                1)).high -
             (CandleSeries.candleAt
              ⟨[1, 2], [3, 5], [0, 1], [2, 4], [1, 1], [0, 10], 10⟩
              (trStart ⟨[1, 2], [3, 5], [0, 1], [2, 4], [1, 1], [0, 10], 10⟩ none +
                1)).low)
            |(CandleSeries.candleAt
              ⟨[1, 2], [3, 5], [0, 1], [2, 4], [1, 1], [0, 10], 10⟩
              (trStart ⟨[1, 2], [3, 5], [0, 1], [2, 4], [1, 1], [0, 10], 10⟩ none +
                1)).high -
             (CandleSeries.candleAt
              ⟨[1, 2], [3, 5], [0, 1], [2, 4], [1, 1], [0, 10], 10⟩
              (trStart ⟨[1, 2], [3, 5], [0, 1], [2, 4], [1, 1], [0, 10], 10⟩ none + 1 -
                1)).close|)
          |(CandleSeries.candleAt
            ⟨[1, 2], [3, 5], [0, 1], [2, 4], [1, 1], [0, 10], 10⟩
            (trStart ⟨[1, 2], [3, 5], [0, 1], [2, 4], [1, 1], [0, 10], 10⟩ none +
              1)).low -
           (CandleSeries.candleAt
            ⟨[1, 2], [3, 5], [0, 1], [2, 4], [1, 1], [0, 10], 10⟩
            (trStart ⟨[1, 2], [3, 5], [0, 1], [2, 4], [1, 1], [0, 10], 10⟩ none + 1 -
              1)).close|) ∧
    ((calculate_true_range (Series.from_vec "h" [2, 3]) (Series.from_vec "l" [1, 1])
        (Series.from_vec "c" [1, 2])).values.length =
      (Series.from_vec "h" [2, 3]).values.length ∧
     (calculate_true_range (Series.from_vec "h" [2, 3]) (Series.from_vec "l" [1, 1])
        (Series.from_vec "c" [1, 2])).values.getD 1 0 =
      if (1 : ℕ) = 0 then
        (Series.from_vec "h" [2, 3]).values.getD 0 0 -
        (Series.from_vec "l" [1, 1]).values.getD 0 0
      else
        max (max ((Series.from_vec "h" [2, 3]).values.getD 1 0 -
                  (Series.from_vec "l" [1, 1]).values.getD 1 0)
                 |(Series.from_vec "h" [2, 3]).values.getD 1 0 -
                  (Series.from_vec "c" [1, 2]).values.getD (1 - 1) 0|)
            |(Series.from_vec "l" [1, 1]).values.getD 1 0 -
             (Series.from_vec "c" [1, 2]).values.getD (1 - 1) 0|) := by
  have h := C6_true_range_spec ⟨[1, 2], [3, 5], [0, 1], [2, 4], [1, 1], [0, 10], 10⟩
    none (by decide) (Series.from_vec "h" [2, 3]) (Series.from_vec "l" [1, 1])
    (Series.from_vec "c" [1, 2]) (by decide) (by decide)
  exact ⟨⟨h.1.1, h.1.2 1 (by decide)⟩, h.2.1, h.2.2 1 (by decide)⟩
